import Mathlib

/-!
# Verification of the Qwen OAuth credential broker

Shallow embedding of `scripts/qwen_oauth_to_openapi_bak.py`: a credential
broker that loads a persisted OAuth token record, checks its freshness,
refreshes it through a token endpoint when stale, persists the refreshed
record, and derives a normalized `{api_key, base_url, model}` descriptor.

Modelling conventions:
* A Python `dict` parsed from the credential JSON file is an association
  list `Dict` of string keys to `JVal` values (strings, integers, null —
  the value shapes the credential record and token-endpoint bodies use).
* Python exceptions become `Except PyError`.
* The single HTTP POST of the refresh path is an oracle
  `net : TokenRequest → NetResult`; every function that may call the
  network also returns the list of requests it actually issued, so
  "performs no network call" is `requests = []`.
* File writes are returned as a list `saves` of records written, so
  "the on-disk record is unchanged" is `saves = []`.
* `time.time() * 1000` is an integer parameter `now_ms`.
* The interactive-debugger statement `import ipdb; ipdb.set_trace()` on the
  refresh success path does not affect any returned value and is omitted,
  as the design notes direct.
-/

/-- A JSON value as stored in the credential record or a token-endpoint
response body: a string, an integer, or null.  (The record's documented
fields are strings and the millisecond integer `expiry_date`.) -/

inductive JVal where
  | str (s : String)
  | int (n : Int)
  | null

deriving DecidableEq

/-- Python truthiness (`if v:`) for the values of `JVal`: empty string,
zero and `None` are falsy. -/

def JVal.truthy : JVal → Bool
  | .str s => s ≠ ""
  | .int n => n ≠ 0
  | .null => false

/-- Python `str()` of a value, as used when an f-string interpolates it. -/

def JVal.pyStr : JVal → String
  | .str s => s
  | .int n => toString n
  | .null => "None"

/-- A Python dict with string keys, as an association list (insertion
order preserved, first binding of a key is the authoritative one). -/

abbrev Dict := List (String × JVal)

/-- `d[k]` / `k in d`: the value at key `k`, if present. -/

def Dict.get? (d : Dict) (k : String) : Option JVal :=
  match d with
  | [] => none
  | (k', v) :: rest => if k' = k then some v else Dict.get? rest k

/-- `d[k] = v` (also one key of `d.update({...})`): replace the binding of
`k` in place, or append it. -/

def Dict.set (d : Dict) (k : String) (v : JVal) : Dict :=
  match d with
  | [] => [(k, v)]
  | (k', v') :: rest => if k' = k then (k, v) :: rest else (k', v') :: Dict.set rest k v

/-- The Python exceptions the broker can raise. -/

inductive PyError where
  | keyError (key : String)          -- unguarded `d['k']` on a missing key
  | valueError (msg : String)
  | typeError                        -- arithmetic on a non-integer value
  | attributeError                   -- `.startswith` on a non-string value
  | httpError (status : Nat)         -- requests: `response.raise_for_status()`
  | connectionError                  -- requests: connection-level failure
  | fileNotFound                     -- credential file absent
  | jsonDecodeError                  -- credential file not valid JSON

deriving DecidableEq

-- Constants of the script.

def QWEN_OAUTH_BASE_URL : String := "https://chat.qwen.ai"

def QWEN_OAUTH_TOKEN_ENDPOINT : String := QWEN_OAUTH_BASE_URL ++ "/api/v1/oauth2/token"

def QWEN_OAUTH_CLIENT_ID : String := "f0304373b74a44d2b584a3fb70ca9e56"

def QWEN_DEFAULT_BASE_URL : String := "https://dashscope.aliyuncs.com/compatible-mode/v1"

def QWEN_DIR : String := ".qwen"

def QWEN_CREDENTIAL_FILENAME : String := "oauth_creds.json"

/-- Python `s.startswith(p)`. -/

def pyStartsWith (s p : String) : Bool := p.data.isPrefixOf s.data

/-- Python `s.endswith(p)`. -/

def pyEndsWith (s p : String) : Bool := p.data.isSuffixOf s.data

/-- `TOKEN_REFRESH_BUFFER_MS = 30 * 1000` of `is_token_valid`. -/

def TOKEN_REFRESH_BUFFER_MS : Int := 30 * 1000

/-- `is_token_valid(credentials)`: false when `expiry_date` is absent, else
`now_ms < expiry_date - buffer`.  Subtracting from a non-integer value
raises `TypeError` in Python, hence the `Except`. -/

def is_token_valid (credentials : Dict) (now_ms : Int) : Except PyError Bool :=
  match credentials.get? "expiry_date" with
  | none => .ok false
  | some (.int e) => .ok (decide (now_ms < e - TOKEN_REFRESH_BUFFER_MS))
  | some _ => .error .typeError

/-- The form-encoded body of the one POST `refresh_access_token` makes. -/

structure TokenRequest where
  grant_type : String
  refresh_token : JVal
  client_id : String

deriving DecidableEq

/-- What the network does with the POST: an HTTP reply whose JSON body
parsed to `body`, or a connection-level failure. -/

inductive NetResult where
  | response (status : Nat) (body : Dict)
  | connError

deriving DecidableEq

/-- `refresh_access_token(credentials)`: checks the refresh token, POSTs to
the fixed token endpoint, `raise_for_status()`s (requests raises exactly for
400 ≤ status < 600), rejects a body with an `error` field, and otherwise
returns a copy of the input with `access_token`, `token_type` (default
`"Bearer"`), `refresh_token` (default: the old one) and
`expiry_date = int(now) + expires_in * 1000` overwritten, in that update
order.  Also returns the list of POSTs actually made. -/

def refresh_access_token (credentials : Dict) (net : TokenRequest → NetResult)
    (now_ms : Int) : Except PyError Dict × List TokenRequest :=
  match credentials.get? "refresh_token" with
  | none => (.error (.valueError "No refresh token available in credentials."), [])
  | some rt =>
    if !rt.truthy then
      (.error (.valueError "No refresh token available in credentials."), [])
    else
      let data : TokenRequest := ⟨"refresh_token", rt, QWEN_OAUTH_CLIENT_ID⟩
      match net data with
      | .connError => (.error .connectionError, [data])
      | .response status token_data =>
        if 400 ≤ status ∧ status < 600 then
          (.error (.httpError status), [data])
        else
          match token_data.get? "error" with
          | some e =>
            (.error (.valueError ("Token refresh failed: " ++ e.pyStr ++ " - " ++
              ((token_data.get? "error_description").getD (.str "")).pyStr)), [data])
          | none =>
            match token_data.get? "access_token" with
            | none => (.error (.keyError "access_token"), [data])
            | some atv =>
              match token_data.get? "expires_in" with
              | none => (.error (.keyError "expires_in"), [data])
              | some (.int ei) =>
                (.ok ((((credentials.set "access_token" atv).set "token_type"
                    ((token_data.get? "token_type").getD (.str "Bearer"))).set
                    "refresh_token"
                    ((token_data.get? "refresh_token").getD rt)).set "expiry_date"
                    (.int (now_ms + ei * 1000))), [data])
              | some _ => (.error .typeError, [data])

/-- The normalized descriptor `get_openapi_credentials` returns. -/

structure OpenApiCreds where
  api_key : JVal
  base_url : String
  model : String

deriving DecidableEq

/-- Lines 181–192 of the script: compute `base_url` from
`credentials.get('resource_url', QWEN_DEFAULT_BASE_URL)` (prefix `https://`
when no scheme, append `/v1` when missing) and build the descriptor with
`credentials['access_token']` and the fixed model name.  `.startswith` on a
non-string `resource_url` raises `AttributeError`. -/

def derive_descriptor (credentials : Dict) : Except PyError OpenApiCreds :=
  match (credentials.get? "resource_url").getD (.str QWEN_DEFAULT_BASE_URL) with
  | .str base0 =>
    let base1 := if pyStartsWith base0 "http://" || pyStartsWith base0 "https://"
      then base0 else "https://" ++ base0
    let base_url := if pyEndsWith base1 "/v1" then base1 else base1 ++ "/v1"
    match credentials.get? "access_token" with
    | none => .error (.keyError "access_token")
    | some ak => .ok ⟨ak, base_url, "qwen3-coder-plus"⟩
  | _ => .error .attributeError

deriving instance DecidableEq for Except

/-- One run of the broker: its result, the records it wrote to the
credential file (in order), and the POSTs it made (in order). -/

structure BrokerRun where
  result : Except PyError OpenApiCreds
  saves : List Dict
  requests : List TokenRequest

deriving DecidableEq

/-- `get_openapi_credentials(custom_path)`: load (the outcome of
`load_qwen_credentials` is the parameter `loaded`), refresh-and-save when
the token is not valid, then derive the descriptor. -/

def get_openapi_credentials (loaded : Except PyError Dict)
    (net : TokenRequest → NetResult) (now_ms : Int) : BrokerRun :=
  match loaded with
  | .error e => ⟨.error e, [], []⟩
  | .ok credentials =>
    match is_token_valid credentials now_ms with
    | .error e => ⟨.error e, [], []⟩
    | .ok true => ⟨derive_descriptor credentials, [], []⟩
    | .ok false =>
      match refresh_access_token credentials net now_ms with
      | (.error e, reqs) => ⟨.error e, [], reqs⟩
      | (.ok newCreds, reqs) => ⟨derive_descriptor newCreds, [newCreds], reqs⟩

-- Basic facts about `Dict.get?` and `Dict.set`.

def normalize_base_url (base : String) : String :=
  let base1 := if pyStartsWith base "http://" || pyStartsWith base "https://"
    then base else "https://" ++ base
  if pyEndsWith base1 "/v1" then base1 else base1 ++ "/v1"

/-- C3: the descriptor's `base_url` is the normalization (scheme-prefix,
`/v1`-suffix) of `resource_url` when present, else of the fixed default
URL; and for every string the normalization ends in `/v1` and starts with
an explicit `http://` or `https://` scheme. -/

def pySlice2 (s : String) : String := ⟨s.data.drop 2⟩

/-- Python `s.split("/")` on the character list: split at every `'/'`. -/

def splitSlash : List Char → List (List Char)
  | [] => [[]]
  | c :: cs =>
    if c = '/' then [] :: splitSlash cs
    else
      match splitSlash cs with
      | [] => [[c]]
      | h :: t => (c :: h) :: t

/-- Python `"/".join(parts)` on character lists. -/

def joinSlash : List (List Char) → List Char
  | [] => []
  | [c] => c
  | c :: cs => c ++ '/' :: joinSlash cs

/-- `posixpath.normpath`, the count (0, 1 or exactly 2) of leading slashes
that survive normalization. -/

def normpath_initial_slashes (path : String) : Nat :=
  if pyStartsWith path "/" then
    if pyStartsWith path "//" && !(pyStartsWith path "///") then 2 else 1
  else 0

/-- `posixpath.normpath`, the component loop: drop empty and `.`
components, let `..` cancel a preceding component when one is available. -/

def normpath_loop (isl : Nat) (comps : List (List Char)) : List (List Char) :=
  comps.foldl (fun acc comp =>
    if comp = [] ∨ comp = ['.'] then acc
    else if comp ≠ ['.', '.'] ∨ (isl = 0 ∧ acc = []) ∨
        acc.getLast? = some ['.', '.'] then acc ++ [comp]
    else acc.dropLast) []

/-- `posixpath.normpath`: collapse empty and `.` components, resolve `..`
against preceding components, keep the (1 or exactly-2) leading slashes. -/

def normpath (path : String) : String :=
  if path = "" then "."
  else
    let isl := normpath_initial_slashes path
    let out := List.replicate isl '/' ++ joinSlash (normpath_loop isl (splitSlash path.data))
    if out = [] then "." else ⟨out⟩

/-- `posixpath.join(a, b)`. -/

def posix_join2 (a b : String) : String :=
  if pyStartsWith b "/" then b
  else if a = "" ∨ pyEndsWith a "/" then a ++ b
  else a ++ "/" ++ b

/-- `posixpath.join(a, b, c)`. -/

def posix_join3 (a b c : String) : String := posix_join2 (posix_join2 a b) c

/-- `posixpath.abspath`: make absolute against the working directory, then
normalize. -/

def abspath (cwd path : String) : String :=
  normpath (if pyStartsWith path "/" then path else posix_join2 cwd path)

/-- `get_qwen_credential_path(custom_path)`, with `os.path.expanduser("~")`
and the working directory as the parameters `home` and `cwd`: an empty or
missing custom path resolves to `<home>/.qwen/oauth_creds.json`; a custom
path starting `~/` is joined (minus that marker) onto the home directory;
any other custom path goes through `os.path.abspath`. -/

def get_qwen_credential_path (home cwd : String) (custom_path : Option String) : String :=
  match custom_path with
  | some p =>
    if p = "" then posix_join3 home QWEN_DIR QWEN_CREDENTIAL_FILENAME
    else if pyStartsWith p "~/" then posix_join2 home (pySlice2 p)
    else abspath cwd p
  | none => posix_join3 home QWEN_DIR QWEN_CREDENTIAL_FILENAME

-- Round-trip facts about `splitSlash` and `joinSlash`, used to show that
-- `normpath` fixes already-normalized absolute paths.

def isJsonWs (c : Char) : Bool := c = ' ' || c = '\t' || c = '\n' || c = '\r'

/-- Drop leading JSON whitespace. -/

def skipWs : List Char → List Char
  | [] => []
  | c :: cs => if isJsonWs c then skipWs cs else c :: cs

/-- The lowercase hex digit `'%x' % n` for `n < 16`. -/

def hexDigitChar (n : Nat) : Char :=
  match n with
  | 0 => '0' | 1 => '1' | 2 => '2' | 3 => '3' | 4 => '4'
  | 5 => '5' | 6 => '6' | 7 => '7' | 8 => '8' | 9 => '9'
  | 10 => 'a' | 11 => 'b' | 12 => 'c' | 13 => 'd' | 14 => 'e'
  | _ => 'f'

/-- The value of one hex digit (`int(c, 16)`), upper or lower case. -/

def hexVal? (c : Char) : Option Nat :=
  if '0' ≤ c ∧ c ≤ '9' then some (c.toNat - '0'.toNat)
  else if 'a' ≤ c ∧ c ≤ 'f' then some (c.toNat - 'a'.toNat + 10)
  else if 'A' ≤ c ∧ c ≤ 'F' then some (c.toNat - 'A'.toNat + 10)
  else none

/-- The four hex digits of a code unit `n < 0x10000`. -/

def uDigits (n : Nat) : List Char :=
  [hexDigitChar (n / 4096 % 16), hexDigitChar (n / 256 % 16),
    hexDigitChar (n / 16 % 16), hexDigitChar (n % 16)]

/-- `\uXXXX` for a code unit `n < 0x10000`. -/

def uEscape (n : Nat) : List Char := '\\' :: 'u' :: uDigits n

/-- `json.dumps` (`ensure_ascii=True`) escaping of one character: the
two-character escapes for quote, backslash and the named controls, `\uXXXX`
for other controls and all non-ASCII, a surrogate pair for astral
characters, the character itself otherwise. -/

def escapeChar (c : Char) : List Char :=
  if c = '"' then ['\\', '"']
  else if c = '\\' then ['\\', '\\']
  else if c = '\n' then ['\\', 'n']
  else if c = '\r' then ['\\', 'r']
  else if c = '\t' then ['\\', 't']
  else if c.toNat = 8 then ['\\', 'b']
  else if c.toNat = 12 then ['\\', 'f']
  else if c.toNat < 0x20 ∨ 0x7f ≤ c.toNat then
    if c.toNat < 0x10000 then uEscape c.toNat
    else uEscape (0xD800 + (c.toNat - 0x10000) / 0x400) ++
      uEscape (0xDC00 + (c.toNat - 0x10000) % 0x400)
  else [c]

/-- `escapeChar` over a whole string. -/

def escapeList : List Char → List Char
  | [] => []
  | c :: cs => escapeChar c ++ escapeList cs

/-- A JSON string token: quote, escaped content, quote. -/

def serializeString (s : String) : List Char := '"' :: escapeList s.data ++ ['"']

/-- Decimal digits of a natural number (Python `repr` of a non-negative
int). -/

def natToDigits (n : Nat) : List Char :=
  if n < 10 then [hexDigitChar n]
  else natToDigits (n / 10) ++ [hexDigitChar (n % 10)]
termination_by n
decreasing_by omega

/-- Value of a list of decimal digits. -/

def digitsToNat (ds : List Char) : Nat :=
  ds.foldl (fun acc c => acc * 10 + (c.toNat - '0'.toNat)) 0

/-- One serialized JSON value of the record shape. -/

def serializeJVal : JVal → List Char
  | .str s => serializeString s
  | .int n => if n < 0 then '-' :: natToDigits n.natAbs else natToDigits n.toNat
  | .null => ['n', 'u', 'l', 'l']

/-- One `"key": value` line of `json.dump(..., indent=2)`. -/

def serializeMember (kv : String × JVal) : List Char :=
  '\n' :: ' ' :: ' ' :: (serializeString kv.1 ++ ':' :: ' ' :: serializeJVal kv.2)

/-- Join with `','`, the item separator `json.dump` uses with an indent. -/

def joinComma : List (List Char) → List Char
  | [] => []
  | [x] => x
  | x :: xs => x ++ ',' :: joinComma xs

/-- `json.dump(record, f, indent=2)`: the exact text written to the
credential file. -/

def json_dumps (d : Dict) : String :=
  match d with
  | [] => "{}"
  | _ => ⟨'{' :: (joinComma (d.map serializeMember) ++ ['\n', '}'])⟩

/-- Four hex digits at the head of the input. -/

def parseHex4 : List Char → Option (Nat × List Char)
  | h1 :: h2 :: h3 :: h4 :: rest =>
    match hexVal? h1, hexVal? h2, hexVal? h3, hexVal? h4 with
    | some a1, some a2, some a3, some a4 =>
      some (((a1 * 16 + a2) * 16 + a3) * 16 + a4, rest)
    | _, _, _, _ => none
  | _ => none

/-- A `\uXXXX` escape after its `\u`, recombining a surrogate pair into
one character as `json.load` does; a lone surrogate is outside the record
shape and rejected. -/

def parseUEscape (cs : List Char) : Option (Char × List Char) :=
  match parseHex4 cs with
  | none => none
  | some (n, rest) =>
    if 0xD800 ≤ n ∧ n ≤ 0xDBFF then
      match rest with
      | '\\' :: 'u' :: rest2 =>
        match parseHex4 rest2 with
        | some (m, rest3) =>
          if 0xDC00 ≤ m ∧ m ≤ 0xDFFF then
            some (Char.ofNat (0x10000 + (n - 0xD800) * 0x400 + (m - 0xDC00)), rest3)
          else none
        | none => none
      | _ => none
    else if 0xDC00 ≤ n ∧ n ≤ 0xDFFF then none
    else some (Char.ofNat n, rest)

/-- The character denoted by a single-character escape `\e`. -/

def escapeCode (e : Char) : Option Char :=
  if e = '"' then some '"'
  else if e = '\\' then some '\\'
  else if e = '/' then some '/'
  else if e = 'b' then some (Char.ofNat 8)
  else if e = 'f' then some (Char.ofNat 12)
  else if e = 'n' then some '\n'
  else if e = 'r' then some '\r'
  else if e = 't' then some '\t'
  else none

/-- The body of a JSON string after its opening quote: yields the decoded
content and the input after the closing quote.  Escape handling follows
`json.load`: the named escapes, `\uXXXX` with surrogate-pair
recombination; a control character must be escaped.  The fuel bounds the
decoded length. -/

def parseStringBody : Nat → List Char → Option (List Char × List Char)
  | 0, _ => none
  | _ + 1, [] => none
  | fuel + 1, c :: cs =>
    if c = '"' then some ([], cs)
    else if c = '\\' then
      match cs with
      | [] => none
      | 'u' :: cs2 =>
        match parseUEscape cs2 with
        | some (ch, rest) =>
          (parseStringBody fuel rest).map (fun p => (ch :: p.1, p.2))
        | none => none
      | e :: cs2 =>
        match escapeCode e with
        | some ch =>
          (parseStringBody fuel cs2).map (fun p => (ch :: p.1, p.2))
        | none => none
    else if c.toNat < 0x20 then none
    else (parseStringBody fuel cs).map (fun p => (c :: p.1, p.2))

/-- A JSON integer literal at the head of the input: leading zeros are
rejected, and a following `.`/`e`/`E` (a float, outside the record shape)
makes the parse fail. -/

def parseNumBody (s : List Char) : Option (Nat × List Char) :=
  match s with
  | [] => none
  | c :: cs =>
    if ¬ c.isDigit then none
    else
      let ds := List.takeWhile Char.isDigit (c :: cs)
      let rest := List.dropWhile Char.isDigit (c :: cs)
      if c = '0' ∧ ds.length > 1 then none
      else
        match rest with
        | [] => some (digitsToNat ds, [])
        | r :: _ =>
          if r = '.' ∨ r = 'e' ∨ r = 'E' then none
          else some (digitsToNat ds, rest)

/-- One JSON value of the record shape: a string, an integer or `null`. -/

def parseValue (fuel : Nat) (s : List Char) : Option (JVal × List Char) :=
  match s with
  | [] => none
  | c :: cs =>
    if c = '"' then
      (parseStringBody fuel cs).map (fun p => (.str ⟨p.1⟩, p.2))
    else if c = '-' then
      (parseNumBody cs).map (fun p => (.int (-(p.1 : Int)), p.2))
    else if c.isDigit then
      (parseNumBody (c :: cs)).map (fun p => (.int (p.1 : Int), p.2))
    else
      match s with
      | 'n' :: 'u' :: 'l' :: 'l' :: r => some (.null, r)
      | _ => none

/-- The members of a JSON object after its `{` (or after a `,`): repeated
`"key": value` with Python-dict insertion (`Dict.set`), until the `}`. -/

def parseMembers : Nat → Dict → List Char → Option (Dict × List Char)
  | 0, _, _ => none
  | fuel + 1, acc, s =>
    match skipWs s with
    | '"' :: cs =>
      match parseStringBody (fuel + 1) cs with
      | none => none
      | some (k, r1) =>
        match skipWs r1 with
        | ':' :: r2 =>
          match parseValue (fuel + 1) (skipWs r2) with
          | none => none
          | some (v, r3) =>
            match skipWs r3 with
            | ',' :: r4 => parseMembers fuel (Dict.set acc ⟨k⟩ v) r4
            | '}' :: r4 => some (Dict.set acc ⟨k⟩ v, r4)
            | _ => none
        | _ => none
    | _ => none

/-- `json.load` of the credential file, restricted to the record shape: a
single flat object with string keys and string/integer/null values, with
nothing but whitespace after it. -/

def json_loads (s : String) : Option Dict :=
  match skipWs s.data with
  | '{' :: r =>
    match skipWs r with
    | '}' :: r2 => if skipWs r2 = [] then some [] else none
    | _ =>
      match parseMembers (s.data.length + 1) [] r with
      | some (d, rest) => if skipWs rest = [] then some d else none
      | none => none
  | _ => none

-- Round-trip lemmas for the JSON model.

def numSepOk (rest : List Char) : Prop :=
  ∀ r, rest.head? = some r → r.isDigit = false ∧ r ≠ '.' ∧ r ≠ 'e' ∧ r ≠ 'E'

theorem Dict.get?_set_self (d : Dict) (k : String) (v : JVal) :
    (d.set k v).get? k = some v := by
  induction d with
  | nil => simp [Dict.set, Dict.get?]
  | cons p rest ih =>
    obtain ⟨k', v'⟩ := p
    by_cases h : k' = k <;> simp [Dict.set, Dict.get?, h, ih]

theorem Dict.get?_set_ne (d : Dict) (k k' : String) (v : JVal) (h : k ≠ k') :
    (d.set k v).get? k' = d.get? k' := by
  induction d with
  | nil => simp [Dict.set, Dict.get?, h]
  | cons p rest ih =>
    obtain ⟨k₀, v₀⟩ := p
    by_cases h0 : k₀ = k
    · subst h0
      simp [Dict.set, Dict.get?, h]
    · by_cases h1 : k₀ = k' <;>
        simp [Dict.set, Dict.get?, h0, h1, ih, Ne.symm h]

/-- C2: the validity check is false when `expiry_date` is absent, and
otherwise true exactly when `now_ms < expiry_date - 30000`; a record whose
`expiry_date` is `now + 15000` is invalid (inside the 30000 ms buffer) and
one whose `expiry_date` is `now + 360000` is valid. -/

theorem is_token_valid_spec (credentials : Dict) (now_ms : Int) :
    (credentials.get? "expiry_date" = none →
      is_token_valid credentials now_ms = .ok false) ∧
    (∀ e : Int, credentials.get? "expiry_date" = some (.int e) →
      is_token_valid credentials now_ms = .ok (decide (now_ms < e - 30000))) ∧
    (∀ now : Int,
      is_token_valid [("expiry_date", .int (now + 15000))] now = .ok false ∧
      is_token_valid [("expiry_date", .int (now + 360000))] now = .ok true) := by
  refine ⟨fun h => by simp [is_token_valid, h],
    fun e h => by norm_num [is_token_valid, h, TOKEN_REFRESH_BUFFER_MS],
    fun now => ⟨?_, ?_⟩⟩
  · have : ¬ (now < now + 15000 - 30000) := by omega
    simp [is_token_valid, Dict.get?, TOKEN_REFRESH_BUFFER_MS, this]
  · have : now < now + 360000 - 30000 := by omega
    simp [is_token_valid, Dict.get?, TOKEN_REFRESH_BUFFER_MS, this]

theorem is_token_valid_spec_witness :
    is_token_valid [] 0 = .ok false ∧
    is_token_valid [("expiry_date", JVal.int 100000)] 0 = .ok true := by
  constructor
  · exact (is_token_valid_spec [] 0).1 rfl
  · have h := (is_token_valid_spec [("expiry_date", JVal.int 100000)] 0).2.1 100000 rfl
    simpa using h

/-- C5: refresh on a record whose `refresh_token` is absent or empty fails
with the missing-refresh-token `ValueError` and issues no network request. -/

theorem refresh_access_token_no_token (credentials : Dict)
    (net : TokenRequest → NetResult) (now_ms : Int)
    (h : credentials.get? "refresh_token" = none ∨
         credentials.get? "refresh_token" = some (.str "")) :
    refresh_access_token credentials net now_ms =
      (.error (.valueError "No refresh token available in credentials."), []) := by
  rcases h with h | h <;> simp [refresh_access_token, h, JVal.truthy]

theorem refresh_access_token_no_token_witness :
    refresh_access_token [("access_token", JVal.str "A")] (fun _ => .connError) 0 =
      (.error (.valueError "No refresh token available in credentials."), []) :=
  refresh_access_token_no_token [("access_token", JVal.str "A")]
    (fun _ => .connError) 0 (.inl rfl)

/-- C9: a record that passes the validity check but has no `access_token`
key makes `get_openapi_credentials` fail with an unguarded
`KeyError('access_token')` — not an error of the spec's taxonomy — and a
record whose `access_token` is the empty string is passed through with no
check of the "access_token must be non-empty" invariant. -/

theorem get_openapi_credentials_unguarded_access_token :
    get_openapi_credentials (.ok [("expiry_date", .int 1000000)])
      (fun _ => .connError) 0 =
      ⟨.error (.keyError "access_token"), [], []⟩ ∧
    get_openapi_credentials
      (.ok [("expiry_date", .int 1000000), ("access_token", .str "")])
      (fun _ => .connError) 0 =
      ⟨.ok ⟨.str "", QWEN_DEFAULT_BASE_URL, "qwen3-coder-plus"⟩, [], []⟩ := by
  constructor <;> rfl

/-- C10: a 2xx token-endpoint response whose body has no `error` field but
lacks `access_token` (resp. `expires_in`) makes refresh fail with an
unguarded `KeyError` on that response-body key, not an error of the spec's
taxonomy. -/

theorem refresh_access_token_unguarded_body_keys :
    refresh_access_token [("refresh_token", .str "R")]
      (fun _ => .response 200 [("token_type", .str "Bearer")]) 0 =
      (.error (.keyError "access_token"),
        [⟨"refresh_token", .str "R", QWEN_OAUTH_CLIENT_ID⟩]) ∧
    refresh_access_token [("refresh_token", .str "R")]
      (fun _ => .response 200 [("access_token", .str "A")]) 0 =
      (.error (.keyError "expires_in"),
        [⟨"refresh_token", .str "R", QWEN_OAUTH_CLIENT_ID⟩]) := by
  constructor <;> rfl

/-- C4: when the loaded record is stale and the refresh fails, the
refresh's error is the broker's result and nothing is written to the
credential file. -/

theorem get_openapi_credentials_failed_refresh_no_save (credentials : Dict)
    (net : TokenRequest → NetResult) (now_ms : Int) (e : PyError)
    (hstale : is_token_valid credentials now_ms = .ok false)
    (hfail : (refresh_access_token credentials net now_ms).1 = .error e) :
    get_openapi_credentials (.ok credentials) net now_ms =
      ⟨.error e, [], (refresh_access_token credentials net now_ms).2⟩ := by
  rcases hr : refresh_access_token credentials net now_ms with ⟨r, reqs⟩
  rw [hr] at hfail
  simp only at hfail
  subst hfail
  simp [get_openapi_credentials, hstale, hr]

theorem get_openapi_credentials_failed_refresh_no_save_witness :
    get_openapi_credentials (.ok [("access_token", JVal.str "A")])
      (fun _ => .connError) 7 =
      ⟨.error (.valueError "No refresh token available in credentials."), [], []⟩ := by
  have h := get_openapi_credentials_failed_refresh_no_save
    [("access_token", JVal.str "A")] (fun _ => .connError) 7
    (.valueError "No refresh token available in credentials.") rfl rfl
  simpa using h

/-- C6: when the loaded record is valid at the current time, the broker
makes no network request, writes nothing to the credential file, and the
descriptor is derived directly from the loaded record. -/

theorem get_openapi_credentials_valid_no_refresh (credentials : Dict)
    (net : TokenRequest → NetResult) (now_ms : Int)
    (hvalid : is_token_valid credentials now_ms = .ok true) :
    get_openapi_credentials (.ok credentials) net now_ms =
      ⟨derive_descriptor credentials, [], []⟩ := by
  simp [get_openapi_credentials, hvalid]

theorem get_openapi_credentials_valid_no_refresh_witness :
    get_openapi_credentials
      (.ok [("expiry_date", JVal.int 1000000), ("access_token", JVal.str "A")])
      (fun _ => .connError) 0 =
      ⟨.ok ⟨.str "A", QWEN_DEFAULT_BASE_URL, "qwen3-coder-plus"⟩, [], []⟩ := by
  have h := get_openapi_credentials_valid_no_refresh
    [("expiry_date", JVal.int 1000000), ("access_token", JVal.str "A")]
    (fun _ => .connError) 0 rfl
  rw [h]
  rfl

/-- C1: on a record with a non-empty `refresh_token` and a 2xx response
body without an `error` field, refresh returns the input record with
exactly `access_token`, `token_type` (response's value or `"Bearer"`),
`refresh_token` (response's value or the input's) and
`expiry_date = now_ms + expires_in * 1000` overwritten; every other key of
the input keeps its value. -/

theorem refresh_access_token_success (credentials token_data : Dict)
    (net : TokenRequest → NetResult) (now_ms : Int) (status : Nat)
    (rt : String) (atv : JVal) (ei : Int)
    (hrt : credentials.get? "refresh_token" = some (.str rt)) (hrtne : rt ≠ "")
    (hnet : net ⟨"refresh_token", .str rt, QWEN_OAUTH_CLIENT_ID⟩ =
      .response status token_data)
    (h2xx : 200 ≤ status ∧ status < 300)
    (herr : token_data.get? "error" = none)
    (hat : token_data.get? "access_token" = some atv)
    (hei : token_data.get? "expires_in" = some (.int ei)) :
    ∃ r : Dict,
      refresh_access_token credentials net now_ms =
        (.ok r, [⟨"refresh_token", .str rt, QWEN_OAUTH_CLIENT_ID⟩]) ∧
      r.get? "access_token" = some atv ∧
      r.get? "token_type" =
        some ((token_data.get? "token_type").getD (.str "Bearer")) ∧
      r.get? "refresh_token" =
        some ((token_data.get? "refresh_token").getD (.str rt)) ∧
      r.get? "expiry_date" = some (.int (now_ms + ei * 1000)) ∧
      ∀ k, k ≠ "access_token" → k ≠ "token_type" → k ≠ "refresh_token" →
        k ≠ "expiry_date" → r.get? k = credentials.get? k := by
  have htr : (JVal.str rt).truthy = true := by simp [JVal.truthy, hrtne]
  have hif : ¬(400 ≤ status ∧ status < 600) := by omega
  refine ⟨(((credentials.set "access_token" atv).set "token_type"
      ((token_data.get? "token_type").getD (.str "Bearer"))).set "refresh_token"
      ((token_data.get? "refresh_token").getD (.str rt))).set "expiry_date"
      (.int (now_ms + ei * 1000)), ?_, ?_, ?_, ?_, ?_, ?_⟩
  · simp [refresh_access_token, hrt, htr, hnet, hif, herr, hat, hei]
  · rw [Dict.get?_set_ne _ _ _ _ (by decide), Dict.get?_set_ne _ _ _ _ (by decide),
      Dict.get?_set_ne _ _ _ _ (by decide), Dict.get?_set_self]
  · rw [Dict.get?_set_ne _ _ _ _ (by decide), Dict.get?_set_ne _ _ _ _ (by decide),
      Dict.get?_set_self]
  · rw [Dict.get?_set_ne _ _ _ _ (by decide), Dict.get?_set_self]
  · rw [Dict.get?_set_self]
  · intro k h1 h2 h3 h4
    rw [Dict.get?_set_ne _ _ _ _ (Ne.symm h4), Dict.get?_set_ne _ _ _ _ (Ne.symm h3),
      Dict.get?_set_ne _ _ _ _ (Ne.symm h2), Dict.get?_set_ne _ _ _ _ (Ne.symm h1)]

theorem refresh_access_token_success_witness :
    ∃ r : Dict,
      refresh_access_token [("refresh_token", .str "R"), ("resource_url", .str "u")]
        (fun _ => .response 200
          [("access_token", .str "A"), ("expires_in", .int 3600)]) 5 =
        (.ok r, [⟨"refresh_token", .str "R", QWEN_OAUTH_CLIENT_ID⟩]) ∧
      r.get? "access_token" = some (.str "A") ∧
      r.get? "token_type" = some (.str "Bearer") ∧
      r.get? "refresh_token" = some (.str "R") ∧
      r.get? "expiry_date" = some (.int 3600005) ∧
      ∀ k, k ≠ "access_token" → k ≠ "token_type" → k ≠ "refresh_token" →
        k ≠ "expiry_date" →
        r.get? k = Dict.get? [("refresh_token", .str "R"), ("resource_url", .str "u")] k := by
  have h := refresh_access_token_success
    [("refresh_token", .str "R"), ("resource_url", .str "u")]
    [("access_token", .str "A"), ("expires_in", .int 3600)]
    (fun _ => .response 200 [("access_token", .str "A"), ("expires_in", .int 3600)])
    5 200 "R" (.str "A") 3600 rfl (by decide) rfl (by omega) rfl rfl rfl
  simpa using h

-- Facts about `List.isPrefixOf` / `List.isSuffixOf` needed for the
-- base-URL normalization.

theorem isPrefixOf_append_self (p t : List Char) : p.isPrefixOf (p ++ t) = true := by
  simp

theorem isPrefixOf_append_left {p s : List Char} (t : List Char)
    (h : p.isPrefixOf s = true) : p.isPrefixOf (s ++ t) = true := by
  simp only [ List.isPrefixOf_iff_prefix] at h ⊢
  exact h.trans (List.prefix_append s t)

theorem isSuffixOf_append_self (s t : List Char) : t.isSuffixOf (s ++ t) = true := by
  simp

theorem pyStartsWith_append_self (p t : String) : pyStartsWith (p ++ t) p = true := by
  unfold pyStartsWith
  rw [String.data_append]
  exact isPrefixOf_append_self _ _

theorem pyEndsWith_fix (b p : String) :
    pyEndsWith (if pyEndsWith b p then b else b ++ p) p = true := by
  split
  · assumption
  · unfold pyEndsWith
    rw [String.data_append]
    exact isSuffixOf_append_self _ _

theorem pyStartsWith_keep (b t p : String) (h : pyStartsWith b p = true) :
    pyStartsWith (if pyEndsWith b t then b else b ++ t) p = true := by
  split
  · exact h
  · unfold pyStartsWith at h ⊢
    rw [String.data_append]
    exact isPrefixOf_append_left _ h

/-- Lines 182–186 of the script, factored: start from the given base, add
an `https://` scheme when none is present, append `/v1` when missing. -/

theorem derive_descriptor_base_url_spec :
    (∀ (credentials : Dict) (d : OpenApiCreds),
      derive_descriptor credentials = .ok d →
      (credentials.get? "resource_url" = none →
        d.base_url = normalize_base_url QWEN_DEFAULT_BASE_URL) ∧
      (∀ s, credentials.get? "resource_url" = some (.str s) →
        d.base_url = normalize_base_url s)) ∧
    (∀ s : String, pyEndsWith (normalize_base_url s) "/v1" = true ∧
      (pyStartsWith (normalize_base_url s) "http://" = true ∨
       pyStartsWith (normalize_base_url s) "https://" = true)) := by
  constructor
  · intro credentials d hok
    constructor
    · intro hres
      rcases hak : credentials.get? "access_token" with _ | ak <;>
        simp [derive_descriptor, hres, hak, normalize_base_url] at hok ⊢
      rw [← hok]
    · intro s hres
      rcases hak : credentials.get? "access_token" with _ | ak <;>
        simp [derive_descriptor, hres, hak, normalize_base_url] at hok ⊢
      rw [← hok]
  · intro s
    have hrw : normalize_base_url s =
        (if pyEndsWith (if pyStartsWith s "http://" || pyStartsWith s "https://"
            then s else "https://" ++ s) "/v1"
         then (if pyStartsWith s "http://" || pyStartsWith s "https://"
            then s else "https://" ++ s)
         else (if pyStartsWith s "http://" || pyStartsWith s "https://"
            then s else "https://" ++ s) ++ "/v1") := rfl
    rw [hrw]
    constructor
    · exact pyEndsWith_fix _ _
    · rcases hsch : pyStartsWith s "http://" || pyStartsWith s "https://" with _ | _
      · right
        have h := pyStartsWith_keep ("https://" ++ s) "/v1" "https://"
          (pyStartsWith_append_self _ _)
        simpa using h
      · rcases Bool.or_eq_true_iff.mp hsch with hp | hp
        · left
          have h := pyStartsWith_keep s "/v1" "http://" hp
          simpa using h
        · right
          have h := pyStartsWith_keep s "/v1" "https://" hp
          simpa using h

theorem derive_descriptor_base_url_spec_witness :
    (⟨JVal.str "A", "https://example.com/compat/v1", "qwen3-coder-plus"⟩ :
        OpenApiCreds).base_url = normalize_base_url "example.com/compat" ∧
    pyEndsWith (normalize_base_url "example.com/compat") "/v1" = true ∧
    (pyStartsWith (normalize_base_url "example.com/compat") "http://" = true ∨
     pyStartsWith (normalize_base_url "example.com/compat") "https://" = true) := by
  have h1 := (derive_descriptor_base_url_spec.1
    [("access_token", JVal.str "A"), ("resource_url", JVal.str "example.com/compat")]
    ⟨JVal.str "A", "https://example.com/compat/v1", "qwen3-coder-plus"⟩ (by decide)).2
    "example.com/compat" rfl
  exact ⟨h1, derive_descriptor_base_url_spec.2 "example.com/compat"⟩

-- Path resolution (`get_qwen_credential_path`), with the pieces of
-- `os.path` it uses modelled from CPython's `posixpath`.

/-- Python `s[2:]`: drop the first two characters. -/

theorem splitSlash_cons_slash (l : List Char) :
    splitSlash ('/' :: l) = [] :: splitSlash l := by
  simp [splitSlash]

theorem splitSlash_append {c l : List Char} (hc : '/' ∉ c) {h : List Char}
    {t : List (List Char)} (hl : splitSlash l = h :: t) :
    splitSlash (c ++ l) = (c ++ h) :: t := by
  induction c with
  | nil => simpa using hl
  | cons a as ih =>
    have ha : ¬(a = '/') := fun e => hc (by simp [e])
    have has : '/' ∉ as := fun m => hc (List.mem_cons_of_mem _ m)
    simp only [List.cons_append, splitSlash, if_neg ha, List.append_eq, ih has]

theorem splitSlash_joinSlash (comps : List (List Char)) (hne : comps ≠ [])
    (hc : ∀ c ∈ comps, '/' ∉ c) :
    splitSlash (joinSlash comps) = comps := by
  induction comps with
  | nil => exact absurd rfl hne
  | cons c cs ih =>
    cases cs with
    | nil =>
      have h := splitSlash_append (l := []) (hc c (by simp))
        (h := []) (t := []) rfl
      simpa [joinSlash] using h
    | cons d ds =>
      have hj : joinSlash (c :: d :: ds) = c ++ '/' :: joinSlash (d :: ds) := rfl
      have ihr := ih (by simp) (fun x hx => hc x (List.mem_cons_of_mem _ hx))
      have h := splitSlash_append (hc c (by simp))
        (splitSlash_cons_slash (joinSlash (d :: ds)))
      rw [hj, h, ihr]
      simp

theorem joinSlash_head (c : List Char) (cs : List (List Char)) :
    ∃ z, joinSlash (c :: cs) = c ++ z := by
  cases cs with
  | nil => exact ⟨[], by simp [joinSlash]⟩
  | cons d ds => exact ⟨'/' :: joinSlash (d :: ds), rfl⟩

theorem normpath_foldl_regular (isl : Nat) (comps : List (List Char))
    (acc : List (List Char))
    (h : ∀ c ∈ comps, c ≠ [] ∧ c ≠ ['.'] ∧ c ≠ ['.', '.']) :
    comps.foldl (fun acc comp =>
      if comp = [] ∨ comp = ['.'] then acc
      else if comp ≠ ['.', '.'] ∨ (isl = 0 ∧ acc = []) ∨
          acc.getLast? = some ['.', '.'] then acc ++ [comp]
      else acc.dropLast) acc = acc ++ comps := by
  induction comps generalizing acc with
  | nil => simp
  | cons c cs ih =>
    obtain ⟨h1, h2, h3⟩ := h c (by simp)
    simp only [List.foldl_cons]
    rw [if_neg (by simp [h1, h2]), if_pos (Or.inl h3),
      ih _ (fun x hx => h x (List.mem_cons_of_mem _ hx))]
    simp

theorem singleton_isSuffixOf_append (c : Char) (s t : List Char) (ht : t ≠ []) :
    [c].isSuffixOf (s ++ t) = [c].isSuffixOf t := by
  unfold List.isSuffixOf
  rw [List.reverse_append]
  cases htr : t.reverse with
  | nil => exact absurd (by simpa using htr) ht
  | cons a as => simp [List.isPrefixOf]

theorem singleton_isPrefixOf_cons (c a : Char) (l : List Char) :
    [c].isPrefixOf (a :: l) = (c == a) := by
  simp [List.isPrefixOf]

/-- `normpath` fixes every already-normalized absolute path: one written
`/c₁/…/cₙ` whose components are nonempty, are not `.` or `..`, and hold no
separator. -/

theorem normpath_fixes_normalized (comps : List (List Char)) (hne : comps ≠ [])
    (h : ∀ c ∈ comps, c ≠ [] ∧ c ≠ ['.'] ∧ c ≠ ['.', '.'] ∧ '/' ∉ c) :
    normpath ⟨'/' :: joinSlash comps⟩ = ⟨'/' :: joinSlash comps⟩ := by
  obtain ⟨c1, cs, rfl⟩ : ∃ c1 cs, comps = c1 :: cs := by
    cases comps with
    | nil => exact absurd rfl hne
    | cons c1 cs => exact ⟨c1, cs, rfl⟩
  obtain ⟨z, hz⟩ := joinSlash_head c1 cs
  obtain ⟨hc1ne, -, -, hc1s⟩ := h c1 (by simp)
  obtain ⟨a, as, ha⟩ : ∃ a as, c1 = a :: as := by
    cases c1 with
    | nil => exact absurd rfl hc1ne
    | cons a as => exact ⟨a, as, rfl⟩
  have hanz : ¬(a = '/') := fun e => hc1s (by simp [ha, e])
  have hempty : (⟨'/' :: joinSlash (c1 :: cs)⟩ : String) ≠ "" := by
    intro hh
    have := congrArg String.data hh
    simp at this
  have hsw1 : pyStartsWith ⟨'/' :: joinSlash (c1 :: cs)⟩ "/" = true := by
    simp [pyStartsWith, List.isPrefixOf]
  have hsw2 : pyStartsWith ⟨'/' :: joinSlash (c1 :: cs)⟩ "//" = false := by
    have : "//".data = ['/', '/'] := rfl
    simp only [pyStartsWith, this]
    simp only [List.isPrefixOf, show String.data ⟨'/' :: joinSlash (c1 :: cs)⟩ =
      '/' :: joinSlash (c1 :: cs) from rfl]
    rw [hz, ha]
    simp [singleton_isPrefixOf_cons, Ne.symm hanz]
  have hsplit : splitSlash ('/' :: joinSlash (c1 :: cs)) =
      [] :: (c1 :: cs) := by
    rw [splitSlash_cons_slash,
      splitSlash_joinSlash _ (by simp) (fun x hx => (h x hx).2.2.2)]
  have hisl : normpath_initial_slashes ⟨'/' :: joinSlash (c1 :: cs)⟩ = 1 := by
    unfold normpath_initial_slashes
    rw [hsw1, hsw2]
    simp
  have hloop : normpath_loop 1 ([] :: (c1 :: cs)) = c1 :: cs := by
    have h0 : normpath_loop 1 ([] :: (c1 :: cs)) =
        List.foldl (fun acc comp =>
          if comp = [] ∨ comp = ['.'] then acc
          else if comp ≠ ['.', '.'] ∨ ((1 : Nat) = 0 ∧ acc = []) ∨
              acc.getLast? = some ['.', '.'] then acc ++ [comp]
          else acc.dropLast) [] (c1 :: cs) := rfl
    rw [h0]
    exact (normpath_foldl_regular 1 (c1 :: cs) []
      (fun x hx => ⟨(h x hx).1, (h x hx).2.1, (h x hx).2.2.1⟩)).trans (by simp)
  unfold normpath
  rw [if_neg hempty]
  simp only [show String.data ⟨'/' :: joinSlash (c1 :: cs)⟩ =
    '/' :: joinSlash (c1 :: cs) from rfl, hisl, hsplit, hloop]
  simp

theorem posix_join2_plain (a b : String) (hb : pyStartsWith b "/" = false)
    (ha : a ≠ "") (hae : pyEndsWith a "/" = false) :
    posix_join2 a b = a ++ "/" ++ b := by
  simp [posix_join2, hb, ha, hae]

theorem posix_join3_default (home : String) (ha : home ≠ "")
    (hae : pyEndsWith home "/" = false) :
    posix_join3 home QWEN_DIR QWEN_CREDENTIAL_FILENAME =
      home ++ "/.qwen/oauth_creds.json" := by
  have h1 : posix_join2 home QWEN_DIR = home ++ "/" ++ QWEN_DIR :=
    posix_join2_plain _ _ (by decide) ha hae
  have h2ne : home ++ "/" ++ QWEN_DIR ≠ "" := by
    intro hh
    have := congrArg String.data hh
    simp [String.data_append] at this
  have h2e : pyEndsWith (home ++ "/" ++ QWEN_DIR) "/" = false := by
    unfold pyEndsWith
    rw [show ("/" : String).data = ['/'] from rfl, String.data_append,
      singleton_isSuffixOf_append _ _ _ (by decide)]
    rfl
  unfold posix_join3
  rw [h1, posix_join2_plain _ _ (by decide) h2ne h2e]
  apply String.ext
  simp only [String.data_append, List.append_assoc]
  congr 1

theorem get_qwen_credential_path_tilde (home cwd rest : String) (ha : home ≠ "")
    (hae : pyEndsWith home "/" = false) (hr : pyStartsWith rest "/" = false) :
    get_qwen_credential_path home cwd (some ("~/" ++ rest)) =
      home ++ "/" ++ rest := by
  have hdata : ("~/" ++ rest).data = '~' :: '/' :: rest.data := by
    rw [String.data_append]
    rfl
  have hpne : ("~/" ++ rest) ≠ "" := by
    intro hh
    have := congrArg String.data hh
    rw [hdata] at this
    simp at this
  have htilde : pyStartsWith ("~/" ++ rest) "~/" = true := by
    unfold pyStartsWith
    rw [hdata]
    simp [List.isPrefixOf]
  have hslice : pySlice2 ("~/" ++ rest) = rest := by
    unfold pySlice2
    apply String.ext
    rw [hdata]
    rfl
  simp only [get_qwen_credential_path, if_neg hpne, htilde, if_true, hslice]
  exact posix_join2_plain _ _ hr ha hae

theorem get_qwen_credential_path_absolute (home cwd p : String)
    (hp : pyStartsWith p "/" = true) :
    get_qwen_credential_path home cwd (some p) = normpath p := by
  obtain ⟨tl, htl⟩ : ∃ tl, p.data = '/' :: tl := by
    rcases hd : p.data with _ | ⟨c, tl⟩
    · rw [pyStartsWith, hd] at hp
      simp [List.isPrefixOf] at hp
    · rw [pyStartsWith, hd, show ("/" : String).data = ['/'] from rfl,
        singleton_isPrefixOf_cons] at hp
      have hc : '/' = c := beq_iff_eq.mp hp
      exact ⟨tl, by rw [← hc]⟩
  have hpne : p ≠ "" := by
    intro hh
    rw [hh] at htl
    simp at htl
  have hnt : pyStartsWith p "~/" = false := by
    unfold pyStartsWith
    rw [htl, show ("~/" : String).data = ['~', '/'] from rfl]
    simp [List.isPrefixOf]
  simp only [get_qwen_credential_path, if_neg hpne, hnt, Bool.false_eq_true,
    if_false, abspath, hp, if_true]

/-- C7, the claim as frozen is false on the code: an absolute custom path
is passed through `os.path.abspath`, which normalizes it (`/a//b` comes
back `/a/b`, not unchanged), and a `~/` path whose remainder is itself
absolute is swallowed by `os.path.join` (`~//etc` comes back `/etc`, not
the home directory followed by `/etc`). -/

theorem get_qwen_credential_path_claim_counterexample :
    (get_qwen_credential_path "/home/u" "/cwd" (some "/a//b") = "/a/b" ∧
      "/a/b" ≠ "/a//b") ∧
    (get_qwen_credential_path "/home/u" "/cwd" (some "~//etc") = "/etc" ∧
      "/etc" ≠ "/home/u//etc" ∧ "/etc" ≠ "/home/u/etc") := by
  decide

/-- C7 (amended): path resolution is a pure total function;
`resolve_path(None)` is `<home>/.qwen/oauth_creds.json` (for a home
directory that is nonempty and has no trailing slash); a custom path
`~/rest` whose remainder is not itself absolute resolves to
`<home>/rest`; an absolute custom path resolves to its POSIX
normalization, and in particular every already-normalized absolute path
is returned unchanged. -/

theorem get_qwen_credential_path_spec (home cwd rest p : String)
    (hh : home ≠ "") (hhe : pyEndsWith home "/" = false) :
    get_qwen_credential_path home cwd none = home ++ "/.qwen/oauth_creds.json" ∧
    (pyStartsWith rest "/" = false →
      get_qwen_credential_path home cwd (some ("~/" ++ rest)) =
        home ++ "/" ++ rest) ∧
    (pyStartsWith p "/" = true →
      get_qwen_credential_path home cwd (some p) = normpath p) ∧
    (∀ comps : List (List Char), comps ≠ [] →
      (∀ c ∈ comps, c ≠ [] ∧ c ≠ ['.'] ∧ c ≠ ['.', '.'] ∧ '/' ∉ c) →
      normpath ⟨'/' :: joinSlash comps⟩ = ⟨'/' :: joinSlash comps⟩) :=
  ⟨by
    have h := posix_join3_default home hh hhe
    simpa [get_qwen_credential_path] using h,
   fun hr => get_qwen_credential_path_tilde home cwd rest hh hhe hr,
   fun hp => get_qwen_credential_path_absolute home cwd p hp,
   fun comps hne h => normpath_fixes_normalized comps hne h⟩

theorem get_qwen_credential_path_spec_witness :
    get_qwen_credential_path "/home/u" "/cwd" none =
      "/home/u/.qwen/oauth_creds.json" ∧
    get_qwen_credential_path "/home/u" "/cwd" (some ("~/" ++ "foo.json")) =
      "/home/u/foo.json" ∧
    get_qwen_credential_path "/home/u" "/cwd" (some "/abs/path.json") =
      normpath "/abs/path.json" ∧
    normpath ⟨'/' :: joinSlash [['a'], ['b']]⟩ =
      ⟨'/' :: joinSlash [['a'], ['b']]⟩ := by
  obtain ⟨h1, h2, h3, h4⟩ := get_qwen_credential_path_spec "/home/u" "/cwd"
    "foo.json" "/abs/path.json" (by decide) (by decide)
  exact ⟨h1.trans (by decide), (h2 (by decide)).trans (by decide),
    h3 (by decide), h4 [['a'], ['b']] (by decide) (by decide)⟩

-- The credential file's JSON round trip (`json.dump(..., indent=2)` /
-- `json.load`), modelled for the flat record shape of the data model:
-- an object whose values are strings, integers or null.  Lone surrogates,
-- floats, booleans and nested containers are outside the record shape and
-- the parser rejects them.

/-- JSON whitespace accepted between tokens. -/

theorem hexVal?_hexDigitChar (n : Nat) (h : n < 16) :
    hexVal? (hexDigitChar n) = some n := by
  interval_cases n <;> decide

theorem toNat_ofNat_of_valid (n : Nat) (h : n.isValidChar) :
    (Char.ofNat n).toNat = n := by
  unfold Char.ofNat
  rw [dif_pos h]
  unfold Char.ofNatAux Char.toNat
  show (UInt32.ofNatCore n _).toNat = n
  unfold UInt32.ofNatCore UInt32.toNat
  simp [BitVec.toNat_ofNatLt]

theorem char_valid_toNat (c : Char) :
    c.toNat < 0xd800 ∨ (0xe000 ≤ c.toNat ∧ c.toNat < 0x110000) := c.valid

theorem ofNat_toNat_char (c : Char) : Char.ofNat c.toNat = c := Char.ofNat_toNat c

theorem escapeChar_length_pos (c : Char) : 1 ≤ (escapeChar c).length := by
  unfold escapeChar uEscape
  repeat' split
  all_goals simp

theorem length_le_escapeList (s : List Char) : s.length ≤ (escapeList s).length := by
  induction s with
  | nil => simp [escapeList]
  | cons c cs ih =>
    have := escapeChar_length_pos c
    simp only [escapeList, List.length_append, List.length_cons]
    omega

theorem parseHex4_uDigits (n : Nat) (h : n < 0x10000) (rest : List Char) :
    parseHex4 (uDigits n ++ rest) = some (n, rest) := by
  have hv1 := hexVal?_hexDigitChar (n / 4096 % 16) (by omega)
  have hv2 := hexVal?_hexDigitChar (n / 256 % 16) (by omega)
  have hv3 := hexVal?_hexDigitChar (n / 16 % 16) (by omega)
  have hv4 := hexVal?_hexDigitChar (n % 16) (by omega)
  have hrec : ((n / 4096 % 16 * 16 + n / 256 % 16) * 16 + n / 16 % 16) * 16 +
      n % 16 = n := by omega
  simp [uDigits, parseHex4, hv1, hv2, hv3, hv4, hrec]

theorem parseUEscape_bmp (n : Nat) (h : n < 0x10000)
    (hns : ¬(0xD800 ≤ n ∧ n < 0xE000)) (rest : List Char) :
    parseUEscape (uDigits n ++ rest) = some (Char.ofNat n, rest) := by
  have hs1 : ¬(0xD800 ≤ n ∧ n ≤ 0xDBFF) := by omega
  have hs2 : ¬(0xDC00 ≤ n ∧ n ≤ 0xDFFF) := by omega
  unfold parseUEscape
  rw [parseHex4_uDigits n h rest]
  simp only []
  rw [if_neg hs1, if_neg hs2]

theorem parseUEscape_pair (hi lo : Nat) (hhi : 0xD800 ≤ hi ∧ hi ≤ 0xDBFF)
    (hhib : hi < 0x10000) (hlo : 0xDC00 ≤ lo ∧ lo ≤ 0xDFFF)
    (hlob : lo < 0x10000) (rest : List Char) :
    parseUEscape (uDigits hi ++ ('\\' :: 'u' :: (uDigits lo ++ rest))) =
      some (Char.ofNat (0x10000 + (hi - 0xD800) * 0x400 + (lo - 0xDC00)), rest) := by
  unfold parseUEscape
  rw [parseHex4_uDigits _ hhib]
  simp only []
  rw [if_pos hhi]
  rw [parseHex4_uDigits _ hlob]
  simp only []
  rw [if_pos hlo]

theorem parseUEscape_astral (n : Nat) (h1 : 0x10000 ≤ n) (h2 : n < 0x110000)
    (rest : List Char) :
    parseUEscape (uDigits (0xD800 + (n - 0x10000) / 0x400) ++
      ('\\' :: 'u' :: (uDigits (0xDC00 + (n - 0x10000) % 0x400) ++ rest))) =
      some (Char.ofNat n, rest) := by
  have h := parseUEscape_pair (0xD800 + (n - 0x10000) / 0x400)
    (0xDC00 + (n - 0x10000) % 0x400) (by omega) (by omega) (by omega) (by omega)
    rest
  rw [h, show 0x10000 + (0xD800 + (n - 0x10000) / 0x400 - 0xD800) * 0x400 +
      (0xDC00 + (n - 0x10000) % 0x400 - 0xDC00) = n from by omega]

theorem parseStringBody_uescape_step (fuel : Nat) (cs tail : List Char) (ch : Char)
    (h : parseUEscape cs = some (ch, tail)) :
    parseStringBody (fuel + 1) ('\\' :: 'u' :: cs) =
      (parseStringBody fuel tail).map (fun p => (ch :: p.1, p.2)) := by
  simp [parseStringBody, h]

theorem escapeRT_quote (fuel : Nat) (tail : List Char) :
    parseStringBody (fuel + 1) (escapeChar '"' ++ tail) =
      (parseStringBody fuel tail).map (fun p => ('"' :: p.1, p.2)) := by
  simp [escapeChar, parseStringBody, escapeCode]

theorem escapeRT_backslash (fuel : Nat) (tail : List Char) :
    parseStringBody (fuel + 1) (escapeChar '\\' ++ tail) =
      (parseStringBody fuel tail).map (fun p => ('\\' :: p.1, p.2)) := by
  simp [escapeChar, parseStringBody, escapeCode]

theorem escapeRT_nl (fuel : Nat) (tail : List Char) :
    parseStringBody (fuel + 1) (escapeChar '\n' ++ tail) =
      (parseStringBody fuel tail).map (fun p => ('\n' :: p.1, p.2)) := by
  simp [escapeChar, parseStringBody, escapeCode]

theorem escapeRT_cr (fuel : Nat) (tail : List Char) :
    parseStringBody (fuel + 1) (escapeChar '\r' ++ tail) =
      (parseStringBody fuel tail).map (fun p => ('\r' :: p.1, p.2)) := by
  simp [escapeChar, parseStringBody, escapeCode]

theorem escapeRT_tab (fuel : Nat) (tail : List Char) :
    parseStringBody (fuel + 1) (escapeChar '\t' ++ tail) =
      (parseStringBody fuel tail).map (fun p => ('\t' :: p.1, p.2)) := by
  simp [escapeChar, parseStringBody, escapeCode]

theorem escapeRT_bs (fuel : Nat) (tail : List Char) :
    parseStringBody (fuel + 1) (escapeChar '\x08' ++ tail) =
      (parseStringBody fuel tail).map (fun p => ('\x08' :: p.1, p.2)) := by
  simp [escapeChar, parseStringBody, escapeCode,
    show Char.ofNat 8 = '\x08' from by decide]

theorem escapeRT_ff (fuel : Nat) (tail : List Char) :
    parseStringBody (fuel + 1) (escapeChar '\x0c' ++ tail) =
      (parseStringBody fuel tail).map (fun p => ('\x0c' :: p.1, p.2)) := by
  simp [escapeChar, parseStringBody, escapeCode,
    show Char.ofNat 12 = '\x0c' from by decide]

theorem escapeRT_bmp (fuel : Nat) (c : Char) (tail : List Char)
    (h1 : ¬c = '"') (h2 : ¬c = '\\') (h3 : ¬c = '\n') (h4 : ¬c = '\r')
    (h5 : ¬c = '\t') (h6 : ¬c.toNat = 8) (h7 : ¬c.toNat = 12)
    (h8 : c.toNat < 0x20 ∨ 0x7f ≤ c.toNat) (h9 : c.toNat < 0x10000) :
    parseStringBody (fuel + 1) (escapeChar c ++ tail) =
      (parseStringBody fuel tail).map (fun p => (c :: p.1, p.2)) := by
  have hvalid := char_valid_toNat c
  have hb := parseUEscape_bmp c.toNat h9 (by omega) tail
  simp [escapeChar, h1, h2, h3, h4, h5, h6, h7, h8, h9, uEscape,
    parseStringBody, hb, ofNat_toNat_char]

theorem escapeRT_astral (fuel : Nat) (c : Char) (tail : List Char)
    (h1 : ¬c = '"') (h2 : ¬c = '\\') (h3 : ¬c = '\n') (h4 : ¬c = '\r')
    (h5 : ¬c = '\t') (h6 : ¬c.toNat = 8) (h7 : ¬c.toNat = 12)
    (h8 : c.toNat < 0x20 ∨ 0x7f ≤ c.toNat) (h9 : ¬c.toNat < 0x10000) :
    parseStringBody (fuel + 1) (escapeChar c ++ tail) =
      (parseStringBody fuel tail).map (fun p => (c :: p.1, p.2)) := by
  have hvalid := char_valid_toNat c
  have ha := parseUEscape_astral c.toNat (by omega) (by omega) tail
  rw [ofNat_toNat_char] at ha
  have hesc : escapeChar c ++ tail = '\\' :: 'u' ::
      (uDigits (0xD800 + (c.toNat - 0x10000) / 0x400) ++
        ('\\' :: 'u' :: (uDigits (0xDC00 + (c.toNat - 0x10000) % 0x400) ++
          tail))) := by
    simp [escapeChar, h1, h2, h3, h4, h5, h6, h7, h8, h9, uEscape]
  rw [hesc, parseStringBody_uescape_step fuel _ tail c ha]

theorem escapeRT_plain (fuel : Nat) (c : Char) (tail : List Char)
    (h1 : ¬c = '"') (h2 : ¬c = '\\') (h3 : ¬c = '\n') (h4 : ¬c = '\r')
    (h5 : ¬c = '\t') (h6 : ¬c.toNat = 8) (h7 : ¬c.toNat = 12)
    (h8 : ¬(c.toNat < 0x20 ∨ 0x7f ≤ c.toNat)) :
    parseStringBody (fuel + 1) (escapeChar c ++ tail) =
      (parseStringBody fuel tail).map (fun p => (c :: p.1, p.2)) := by
  have h20 : ¬ c.toNat < 0x20 := by omega
  have h127 : ¬ 0x7f ≤ c.toNat := by omega
  simp [escapeChar, h1, h2, h3, h4, h5, h6, h7, h20, h127, parseStringBody]

theorem parseStringBody_escapeChar (fuel : Nat) (c : Char) (tail : List Char) :
    parseStringBody (fuel + 1) (escapeChar c ++ tail) =
      (parseStringBody fuel tail).map (fun p => (c :: p.1, p.2)) := by
  by_cases h1 : c = '"'
  · subst h1
    exact escapeRT_quote fuel tail
  by_cases h2 : c = '\\'
  · subst h2
    exact escapeRT_backslash fuel tail
  by_cases h3 : c = '\n'
  · subst h3
    exact escapeRT_nl fuel tail
  by_cases h4 : c = '\r'
  · subst h4
    exact escapeRT_cr fuel tail
  by_cases h5 : c = '\t'
  · subst h5
    exact escapeRT_tab fuel tail
  by_cases h6 : c.toNat = 8
  · have hh := ofNat_toNat_char c
    rw [h6] at hh
    have hc : c = '\x08' := hh.symm.trans (by decide)
    subst hc
    exact escapeRT_bs fuel tail
  by_cases h7 : c.toNat = 12
  · have hh := ofNat_toNat_char c
    rw [h7] at hh
    have hc : c = '\x0c' := hh.symm.trans (by decide)
    subst hc
    exact escapeRT_ff fuel tail
  by_cases h8 : c.toNat < 0x20 ∨ 0x7f ≤ c.toNat
  · by_cases h9 : c.toNat < 0x10000
    · exact escapeRT_bmp fuel c tail h1 h2 h3 h4 h5 h6 h7 h8 h9
    · exact escapeRT_astral fuel c tail h1 h2 h3 h4 h5 h6 h7 h8 h9
  · exact escapeRT_plain fuel c tail h1 h2 h3 h4 h5 h6 h7 h8

theorem parseStringBody_escapeList (s : List Char) : ∀ (fuel : Nat) (tail : List Char),
    s.length < fuel →
    parseStringBody fuel (escapeList s ++ '"' :: tail) = some (s, tail) := by
  induction s with
  | nil =>
    intro fuel tail h
    obtain ⟨f, rfl⟩ : ∃ f, fuel = f + 1 := ⟨fuel - 1, by omega⟩
    simp [escapeList, parseStringBody]
  | cons c cs ih =>
    intro fuel tail h
    obtain ⟨f, rfl⟩ : ∃ f, fuel = f + 1 := ⟨fuel - 1, by omega⟩
    rw [escapeList, List.append_assoc, parseStringBody_escapeChar f c _,
      ih f tail (by simp only [List.length_cons] at h; omega)]
    rfl

theorem natToDigits_ne_nil (n : Nat) : natToDigits n ≠ [] := by
  rw [natToDigits]
  split <;> simp

theorem natToDigits_digits (n : Nat) : ∀ c ∈ natToDigits n, c.isDigit = true := by
  induction n using Nat.strong_induction_on with
  | _ n ih =>
    rw [natToDigits]
    split
    · rename_i h
      intro c hc
      simp only [List.mem_singleton] at hc
      subst hc
      have hd : ∀ m, m < 10 → (hexDigitChar m).isDigit = true := by decide
      exact hd n h
    · rename_i h
      intro c hc
      rw [List.mem_append] at hc
      rcases hc with hc | hc
      · exact ih (n / 10) (by omega) c hc
      · simp only [List.mem_singleton] at hc
        subst hc
        have hd : ∀ m, m < 10 → (hexDigitChar m).isDigit = true := by decide
        exact hd _ (by omega)

theorem digitsToNat_append (ds : List Char) (d : Char) :
    digitsToNat (ds ++ [d]) = digitsToNat ds * 10 + (d.toNat - '0'.toNat) := by
  unfold digitsToNat
  rw [List.foldl_append]
  simp

theorem digitsToNat_natToDigits (n : Nat) : digitsToNat (natToDigits n) = n := by
  induction n using Nat.strong_induction_on with
  | _ n ih =>
    rw [natToDigits]
    split
    · rename_i h
      have hd : ∀ m, m < 10 → digitsToNat [hexDigitChar m] = m := by decide
      exact hd n h
    · rename_i h
      rw [digitsToNat_append, ih (n / 10) (by omega)]
      have hd : ∀ m, m < 10 → (hexDigitChar m).toNat - '0'.toNat = m := by decide
      rw [hd (n % 10) (by omega)]
      omega

theorem natToDigits_head_ne_zero (n : Nat) (hn : n ≠ 0) :
    (natToDigits n).head? ≠ some '0' := by
  induction n using Nat.strong_induction_on with
  | _ n ih =>
    rw [natToDigits]
    split
    · rename_i h
      have hd : ∀ m, m < 10 → m ≠ 0 → ¬ hexDigitChar m = '0' := by decide
      simpa using hd n h hn
    · rename_i h
      rcases hsplit : natToDigits (n / 10) with _ | ⟨d, ds⟩
      · exact absurd hsplit (natToDigits_ne_nil _)
      · have := ih (n / 10) (by omega) (by omega)
        rw [hsplit] at this
        simpa using this

/-- What may legally follow a serialized integer: any following character
is not a digit and not `.`/`e`/`E` (so the number token ends there). -/

theorem takeWhile_all_append (p : Char → Bool) (xs ys : List Char)
    (hx : ∀ x ∈ xs, p x = true)
    (hy : ∀ y, ys.head? = some y → p y = false) :
    (xs ++ ys).takeWhile p = xs ∧ (xs ++ ys).dropWhile p = ys := by
  induction xs with
  | nil =>
    simp only [List.nil_append]
    cases ys with
    | nil => simp
    | cons y ys' =>
      have h := hy y rfl
      simp [List.takeWhile_cons, List.dropWhile_cons, h]
  | cons x xs' ih =>
    have hx1 : p x = true := hx x (by simp)
    obtain ⟨h1, h2⟩ := ih (fun z hz => hx z (by simp [hz]))
    simp [List.takeWhile_cons, List.dropWhile_cons, hx1, h1, h2]

theorem parseNumBody_natToDigits (n : Nat) (rest : List Char) (hr : numSepOk rest) :
    parseNumBody (natToDigits n ++ rest) = some (n, rest) := by
  obtain ⟨d, ds, hds⟩ : ∃ d ds, natToDigits n = d :: ds := by
    rcases h : natToDigits n with _ | ⟨d, ds⟩
    · exact absurd h (natToDigits_ne_nil n)
    · exact ⟨d, ds, rfl⟩
  obtain ⟨htake, hdrop⟩ :=
    takeWhile_all_append Char.isDigit (natToDigits n) rest (natToDigits_digits n)
      (fun y h => (hr y h).1)
  have hd1 : d.isDigit = true := natToDigits_digits n d (by rw [hds]; simp)
  have hlz : ¬(d = '0' ∧ (d :: ds).length > 1) := by
    rintro ⟨hd0, hlen⟩
    simp only [List.length_cons] at hlen
    have hds_ne : ds ≠ [] := by
      intro hh
      rw [hh] at hlen
      simp at hlen
    have hn0 : n ≠ 0 := by
      intro hh
      subst hh
      have h00 : natToDigits 0 = ['0'] := by
        rw [natToDigits]
        rfl
      rw [h00] at hds
      cases hds
      exact hds_ne rfl
    have hhead := natToDigits_head_ne_zero n hn0
    rw [hds] at hhead
    simp only [List.head?_cons] at hhead
    exact hhead (by rw [hd0])
  have hdig : digitsToNat (d :: ds) = n := by
    rw [← hds]
    exact digitsToNat_natToDigits n
  rw [hds] at htake hdrop ⊢
  simp only [List.cons_append] at htake hdrop ⊢
  unfold parseNumBody
  simp only [hd1, not_true, Bool.true_eq_false, not_false_iff, ite_false,
    if_false, htake, hdrop, hdig]
  rw [if_neg hlz]
  cases rest with
  | nil => simp
  | cons r rs =>
    obtain ⟨-, h2, h3, h4⟩ := hr r rfl
    simp [h2, h3, h4]

theorem parseValue_serializeJVal (fuel : Nat) (v : JVal) (rest : List Char)
    (hlen : ∀ s, v = JVal.str s → s.data.length < fuel)
    (hr : numSepOk rest) :
    parseValue fuel (serializeJVal v ++ rest) = some (v, rest) := by
  cases v with
  | str s =>
    obtain ⟨sd⟩ := s
    have hlen' : sd.length < fuel := hlen ⟨sd⟩ rfl
    have hshape : serializeJVal (.str ⟨sd⟩) ++ rest =
        '"' :: (escapeList sd ++ '"' :: rest) := by
      simp [serializeJVal, serializeString]
    rw [hshape]
    simp [parseValue, parseStringBody_escapeList sd fuel rest hlen']
  | int n =>
    by_cases hn : n < 0
    · have hshape : serializeJVal (.int n) ++ rest =
          '-' :: (natToDigits n.natAbs ++ rest) := by
        simp [serializeJVal, if_pos hn]
      rw [hshape]
      simp [parseValue, parseNumBody_natToDigits n.natAbs rest hr]
      rw [abs_of_neg hn, neg_neg]
    · have hshape : serializeJVal (.int n) ++ rest = natToDigits n.toNat ++ rest := by
        simp [serializeJVal, hn]
      rw [hshape]
      obtain ⟨d, ds, hds⟩ : ∃ d ds, natToDigits n.toNat = d :: ds := by
        rcases h : natToDigits n.toNat with _ | ⟨d, ds⟩
        · exact absurd h (natToDigits_ne_nil _)
        · exact ⟨d, ds, rfl⟩
      have hd1 : d.isDigit = true := natToDigits_digits _ d (by rw [hds]; simp)
      have hdq : ¬ d = '"' := by
        intro he
        rw [he] at hd1
        exact absurd hd1 (by decide)
      have hdm : ¬ d = '-' := by
        intro he
        rw [he] at hd1
        exact absurd hd1 (by decide)
      have hpn : parseNumBody (d :: (ds ++ rest)) = some (n.toNat, rest) := by
        rw [show d :: (ds ++ rest) = (d :: ds) ++ rest from rfl, ← hds]
        exact parseNumBody_natToDigits n.toNat rest hr
      have htn : ((n.toNat : Nat) : Int) = n := Int.toNat_of_nonneg (by omega)
      rw [hds]
      simp [parseValue, hdq, hdm, hd1, hpn, htn]
  | null =>
    have hshape : serializeJVal .null ++ rest =
        'n' :: 'u' :: 'l' :: 'l' :: rest := by simp [serializeJVal]
    rw [hshape]
    simp [parseValue]

theorem skipWs_cons_of_not_ws (c : Char) (l : List Char) (h : isJsonWs c = false) :
    skipWs (c :: l) = c :: l := by
  simp [skipWs, h]

theorem isJsonWs_of_isDigit (c : Char) (h : c.isDigit = true) : isJsonWs c = false := by
  unfold isJsonWs
  by_cases h1 : c = ' '
  · rw [h1] at h
    exact absurd h (by decide)
  by_cases h2 : c = '\t'
  · rw [h2] at h
    exact absurd h (by decide)
  by_cases h3 : c = '\n'
  · rw [h3] at h
    exact absurd h (by decide)
  by_cases h4 : c = '\r'
  · rw [h4] at h
    exact absurd h (by decide)
  simp [h1, h2, h3, h4]

theorem skipWs_serializeJVal (v : JVal) (t : List Char) :
    skipWs (serializeJVal v ++ t) = serializeJVal v ++ t := by
  cases v with
  | str s =>
    simp [serializeJVal, serializeString, skipWs, isJsonWs]
  | int n =>
    by_cases hn : n < 0
    · simp [serializeJVal, if_pos hn, skipWs, isJsonWs]
    · simp only [serializeJVal, if_neg hn]
      obtain ⟨d, ds, hds⟩ : ∃ d ds, natToDigits n.toNat = d :: ds := by
        rcases h : natToDigits n.toNat with _ | ⟨d, ds⟩
        · exact absurd h (natToDigits_ne_nil _)
        · exact ⟨d, ds, rfl⟩
      have hd1 : d.isDigit = true := natToDigits_digits _ d (by rw [hds]; simp)
      rw [hds, List.cons_append,
        skipWs_cons_of_not_ws d _ (isJsonWs_of_isDigit d hd1)]
  | null =>
    simp [serializeJVal, skipWs, isJsonWs]

theorem parseMembers_step (fuel : Nat) (kd : List Char) (v : JVal)
    (tail : List Char) (acc : Dict)
    (hk : kd.length < fuel + 1)
    (hv : ∀ s, v = JVal.str s → s.data.length < fuel + 1)
    (ht : numSepOk tail) :
    parseMembers (fuel + 1) acc (serializeMember (⟨kd⟩, v) ++ tail) =
      (match skipWs tail with
       | ',' :: r4 => parseMembers fuel (Dict.set acc ⟨kd⟩ v) r4
       | '}' :: r4 => some (Dict.set acc ⟨kd⟩ v, r4)
       | _ => none) := by
  have hshape : serializeMember (⟨kd⟩, v) ++ tail =
      '\n' :: ' ' :: ' ' :: ('"' :: (escapeList kd ++
        ('"' :: (':' :: (' ' :: (serializeJVal v ++ tail)))))) := by
    simp [serializeMember, serializeString]
  rw [hshape]
  simp only [parseMembers]
  rw [show skipWs ('\n' :: ' ' :: ' ' :: ('"' :: (escapeList kd ++
      ('"' :: (':' :: (' ' :: (serializeJVal v ++ tail))))))) =
      '"' :: (escapeList kd ++ ('"' :: (':' :: (' ' :: (serializeJVal v ++ tail)))))
    from by simp [skipWs, isJsonWs]]
  simp only
  rw [parseStringBody_escapeList kd (fuel + 1)
    (':' :: (' ' :: (serializeJVal v ++ tail))) hk]
  simp only
  rw [skipWs_cons_of_not_ws ':' _ (by decide)]
  simp only
  rw [show skipWs (' ' :: (serializeJVal v ++ tail)) = skipWs (serializeJVal v ++ tail)
    from by simp [skipWs, isJsonWs]]
  rw [skipWs_serializeJVal v tail]
  rw [parseValue_serializeJVal (fuel + 1) v tail hv ht]

theorem serializeJVal_length_pos (v : JVal) : 1 ≤ (serializeJVal v).length := by
  cases v with
  | str s => simp [serializeJVal, serializeString]
  | int n =>
    by_cases hn : n < 0
    · simp [serializeJVal, if_pos hn]
    · simp only [serializeJVal, if_neg hn]
      cases h : natToDigits n.toNat with
      | nil => exact absurd h (natToDigits_ne_nil _)
      | cons d ds => simp [h]
  | null => simp [serializeJVal]

theorem serializeMember_length_key (kd : List Char) (v : JVal) :
    kd.length + 7 ≤ (serializeMember (⟨kd⟩, v)).length := by
  have h1 := length_le_escapeList kd
  have h2 := serializeJVal_length_pos v
  simp [serializeMember, serializeString]
  omega

theorem serializeMember_length_val_str (kd : List Char) (s : String) :
    s.data.length + 2 ≤ (serializeMember (⟨kd⟩, JVal.str s)).length := by
  have h1 := length_le_escapeList s.data
  have h3 : s.length = s.data.length := rfl
  simp [serializeMember, serializeString, serializeJVal]
  omega

theorem parseMembers_serialized (ms : Dict) : ∀ (kd : List Char) (v : JVal)
    (acc : Dict) (fuel : Nat),
    (joinComma (((⟨kd⟩, v) :: ms).map serializeMember)).length + 2 ≤ fuel →
    parseMembers fuel acc
      (joinComma (((⟨kd⟩, v) :: ms).map serializeMember) ++ ['\n', '}']) =
      some (ms.foldl (fun a kv => a.set kv.1 kv.2) (acc.set ⟨kd⟩ v), []) := by
  induction ms with
  | nil =>
    intro kd v acc fuel hf
    obtain ⟨f, rfl⟩ : ∃ f, fuel = f + 1 := ⟨fuel - 1, by omega⟩
    have hjc : joinComma ([((⟨kd⟩ : String), v)].map serializeMember) =
        serializeMember (⟨kd⟩, v) := rfl
    rw [hjc] at hf ⊢
    have hmk := serializeMember_length_key kd v
    have hk : kd.length < f + 1 := by omega
    have hv : ∀ s, v = JVal.str s → s.data.length < f + 1 := by
      intro s hs
      subst hs
      have hms := serializeMember_length_val_str kd s
      omega
    rw [parseMembers_step f kd v ['\n', '}'] acc hk hv
      (fun r h => by
        simp only [List.head?_cons, Option.some.injEq] at h
        subst h
        exact ⟨by decide, by decide, by decide, by decide⟩)]
    rw [show skipWs ['\n', '}'] = ['}'] from by decide]
    simp
  | cons m1 ms' ih =>
    intro kd v acc fuel hf
    obtain ⟨k1, v1⟩ := m1
    obtain ⟨k1d⟩ := k1
    obtain ⟨f, rfl⟩ : ∃ f, fuel = f + 1 := ⟨fuel - 1, by omega⟩
    have hjc : joinComma ((((⟨kd⟩ : String), v) :: (⟨k1d⟩, v1) :: ms').map
        serializeMember) =
        serializeMember (⟨kd⟩, v) ++
          ',' :: joinComma (((⟨k1d⟩, v1) :: ms').map serializeMember) := rfl
    have hshape : joinComma ((((⟨kd⟩ : String), v) :: (⟨k1d⟩, v1) :: ms').map
        serializeMember) ++ ['\n', '}'] =
        serializeMember (⟨kd⟩, v) ++ (',' ::
          (joinComma (((⟨k1d⟩, v1) :: ms').map serializeMember) ++ ['\n', '}'])) := by
      rw [hjc]
      simp
    rw [hshape]
    rw [hjc] at hf
    simp only [List.length_append, List.length_cons] at hf
    have hmk := serializeMember_length_key kd v
    have hk : kd.length < f + 1 := by omega
    have hv : ∀ s, v = JVal.str s → s.data.length < f + 1 := by
      intro s hs
      subst hs
      have hms := serializeMember_length_val_str kd s
      omega
    rw [parseMembers_step f kd v _ acc hk hv
      (fun r h => by
        simp only [List.head?_cons, Option.some.injEq] at h
        subst h
        exact ⟨by decide, by decide, by decide, by decide⟩)]
    rw [skipWs_cons_of_not_ws ',' _ (by decide)]
    simp only [List.foldl_cons]
    exact ih k1d v1 (Dict.set acc ⟨kd⟩ v) f (by omega)

theorem Dict.set_eq_append (d : Dict) (k : String) (v : JVal)
    (h : ∀ kv ∈ d, kv.1 ≠ k) : d.set k v = d ++ [(k, v)] := by
  induction d with
  | nil => rfl
  | cons p rest ih =>
    obtain ⟨k0, v0⟩ := p
    have h0 : k0 ≠ k := h (k0, v0) (by simp)
    simp [Dict.set, h0, ih (fun kv hkv => h kv (by simp [hkv]))]

theorem Dict.set_cons_eq (k0 : String) (v0 : JVal) (rest : Dict) (k : String)
    (v : JVal) (h : k0 = k) : Dict.set ((k0, v0) :: rest) k v = (k, v) :: rest := by
  show (if k0 = k then (k, v) :: rest else (k0, v0) :: Dict.set rest k v) = _
  rw [if_pos h]

theorem Dict.set_cons_ne (k0 : String) (v0 : JVal) (rest : Dict) (k : String)
    (v : JVal) (h : ¬ k0 = k) :
    Dict.set ((k0, v0) :: rest) k v = (k0, v0) :: Dict.set rest k v := by
  show (if k0 = k then (k, v) :: rest else (k0, v0) :: Dict.set rest k v) = _
  rw [if_neg h]

theorem Dict.mem_keys_set (d : Dict) (k : String) (v : JVal) (a : String)
    (ha : a ∈ (d.set k v).map Prod.fst) : a ∈ d.map Prod.fst ∨ a = k := by
  induction d with
  | nil =>
    rw [show Dict.set [] k v = [(k, v)] from rfl, List.map_singleton,
      List.mem_singleton] at ha
    exact Or.inr ha
  | cons p rest ih =>
    obtain ⟨k0, v0⟩ := p
    by_cases h0 : k0 = k
    · rw [Dict.set_cons_eq k0 v0 rest k v h0, List.map_cons, List.mem_cons] at ha
      rcases ha with ha | ha
      · exact Or.inr ha
      · refine Or.inl ?_
        rw [List.map_cons, List.mem_cons]
        exact Or.inr ha
    · rw [Dict.set_cons_ne k0 v0 rest k v h0, List.map_cons, List.mem_cons] at ha
      rcases ha with ha | ha
      · refine Or.inl ?_
        rw [List.map_cons, List.mem_cons]
        exact Or.inl ha
      · rcases ih ha with h | h
        · refine Or.inl ?_
          rw [List.map_cons, List.mem_cons]
          exact Or.inr h
        · exact Or.inr h

theorem Dict.set_keys_nodup (d : Dict) (k : String) (v : JVal)
    (h : (d.map Prod.fst).Nodup) : ((d.set k v).map Prod.fst).Nodup := by
  induction d with
  | nil =>
    rw [show Dict.set [] k v = [(k, v)] from rfl]
    simp
  | cons p rest ih =>
    obtain ⟨k0, v0⟩ := p
    rw [List.map_cons, List.nodup_cons] at h
    by_cases h0 : k0 = k
    · rw [Dict.set_cons_eq k0 v0 rest k v h0, List.map_cons, List.nodup_cons]
      rw [h0] at h
      exact h
    · rw [Dict.set_cons_ne k0 v0 rest k v h0, List.map_cons, List.nodup_cons]
      refine ⟨?_, ih h.2⟩
      intro hmem
      rcases Dict.mem_keys_set rest k v k0 hmem with hh | hh
      · exact h.1 hh
      · exact h0 hh

theorem foldl_set_append (ms : Dict) : ∀ (acc : Dict),
    (∀ kv ∈ ms, ∀ kv' ∈ acc, kv.1 ≠ kv'.1) →
    (ms.map Prod.fst).Nodup →
    ms.foldl (fun a kv => a.set kv.1 kv.2) acc = acc ++ ms := by
  induction ms with
  | nil =>
    intro acc _ _
    simp
  | cons m rest ih =>
    intro acc hfresh hnd
    obtain ⟨k, v⟩ := m
    simp only [List.foldl_cons]
    have hset : acc.set k v = acc ++ [(k, v)] :=
      Dict.set_eq_append acc k v
        (fun kv hkv => (hfresh (k, v) (by simp) kv hkv).symm)
    rw [hset]
    simp only [List.map_cons, List.nodup_cons] at hnd
    rw [ih (acc ++ [(k, v)]) ?fresh hnd.2]
    · simp
    case fresh =>
      intro kv hkv kv' hkv'
      rw [List.mem_append] at hkv'
      rcases hkv' with hkv' | hkv'
      · exact hfresh kv (by simp [hkv]) kv' hkv'
      · simp only [List.mem_singleton] at hkv'
        subst hkv'
        intro he
        have hm := List.mem_map_of_mem Prod.fst hkv
        rw [he] at hm
        exact hnd.1 hm

theorem json_loads_dumps (d : Dict) (hnd : (d.map Prod.fst).Nodup) :
    json_loads (json_dumps d) = some d := by
  cases d with
  | nil => decide
  | cons m ms =>
    obtain ⟨k, v⟩ := m
    obtain ⟨kd⟩ := k
    have hdump : json_dumps (((⟨kd⟩ : String), v) :: ms) =
        ⟨'{' :: (joinComma ((((⟨kd⟩ : String), v) :: ms).map serializeMember) ++
          ['\n', '}'])⟩ := rfl
    rw [hdump]
    have hsm : ∀ t : List Char, serializeMember ((⟨kd⟩ : String), v) ++ t =
        '\n' :: ' ' :: ' ' :: ('"' :: (escapeList kd ++
          ('"' :: (':' :: (' ' :: (serializeJVal v ++ t)))))) := by
      intro t
      simp [serializeMember, serializeString]
    obtain ⟨t, ht⟩ : ∃ t : List Char,
        joinComma ((((⟨kd⟩ : String), v) :: ms).map serializeMember) ++ ['\n', '}'] =
        serializeMember ((⟨kd⟩ : String), v) ++ t := by
      cases ms with
      | nil => exact ⟨['\n', '}'], rfl⟩
      | cons m1 ms' =>
        refine ⟨',' :: (joinComma ((m1 :: ms').map serializeMember) ++ ['\n', '}']), ?_⟩
        show (serializeMember ((⟨kd⟩ : String), v) ++
          ',' :: joinComma ((m1 :: ms').map serializeMember)) ++ ['\n', '}'] = _
        simp
    have hskip : skipWs (joinComma ((((⟨kd⟩ : String), v) :: ms).map serializeMember)
        ++ ['\n', '}']) =
        '"' :: (escapeList kd ++ ('"' :: (':' :: (' ' :: (serializeJVal v ++ t))))) := by
      rw [ht, hsm t]
      simp [skipWs, isJsonWs]
    unfold json_loads
    rw [show (⟨'{' :: (joinComma ((((⟨kd⟩ : String), v) :: ms).map serializeMember) ++
        ['\n', '}'])⟩ : String).data =
        '{' :: (joinComma ((((⟨kd⟩ : String), v) :: ms).map serializeMember) ++
        ['\n', '}']) from rfl]
    rw [skipWs_cons_of_not_ws '{' _ (by decide)]
    simp only [hskip]
    rw [show ('{' :: (joinComma ((((⟨kd⟩ : String), v) :: ms).map serializeMember) ++
        ['\n', '}'])).length =
        (joinComma ((((⟨kd⟩ : String), v) :: ms).map serializeMember)).length + 3
      from by simp]
    rw [parseMembers_serialized ms kd v []
      ((joinComma ((((⟨kd⟩ : String), v) :: ms).map serializeMember)).length + 3 + 1)
      (by omega)]
    simp only [show skipWs [] = [] from rfl, if_pos rfl]
    rw [show Dict.set [] (⟨kd⟩ : String) v = [((⟨kd⟩ : String), v)] from rfl]
    rw [List.map_cons, List.nodup_cons] at hnd
    rw [foldl_set_append ms [((⟨kd⟩ : String), v)] ?fresh hnd.2]
    case fresh =>
      intro kv hkv kv' hkv'
      simp only [List.mem_singleton] at hkv'
      subst hkv'
      intro he
      have hm := List.mem_map_of_mem Prod.fst hkv
      rw [he] at hm
      exact hnd.1 hm
    simp

theorem parseMembers_nodup : ∀ (fuel : Nat) (acc : Dict) (s : List Char)
    (out : Dict) (rest : List Char),
    (acc.map Prod.fst).Nodup →
    parseMembers fuel acc s = some (out, rest) →
    (out.map Prod.fst).Nodup := by
  intro fuel
  induction fuel with
  | zero =>
    intro acc s out rest _ h
    simp [parseMembers] at h
  | succ f ih =>
    intro acc s out rest hacc h
    simp only [parseMembers] at h
    split at h
    · split at h
      · exact absurd h (by simp)
      · split at h
        · split at h
          · exact absurd h (by simp)
          · split at h
            · exact ih _ _ _ _ (Dict.set_keys_nodup acc _ _ hacc) h
            · simp only [Option.some.injEq, Prod.mk.injEq] at h
              obtain ⟨h1, -⟩ := h
              rw [← h1]
              exact Dict.set_keys_nodup acc _ _ hacc
            · exact absurd h (by simp)
        · exact absurd h (by simp)
    · exact absurd h (by simp)

theorem json_loads_nodup (x : String) (d : Dict) (h : json_loads x = some d) :
    (d.map Prod.fst).Nodup := by
  unfold json_loads at h
  repeat' split at h
  all_goals first
    | (simp only [Option.some.injEq] at h
       subst h
       simp)
    | (rename_i heq hws
       simp only [Option.some.injEq] at h
       subst h
       exact parseMembers_nodup _ _ _ _ _ (by simp) heq)
    | exact absurd h (by simp)

/-- C8: for every parseable credential file, the record obtained by loading
it serializes to content that parses back to the same record, and
serialize-then-parse-then-serialize gives byte-for-byte the same file
content: `serialize ∘ parse` is idempotent, so `save(load(path))` leaves
equivalent bytes. -/

theorem save_load_round_trip (x : String) (d : Dict)
    (h : json_loads x = some d) :
    json_loads (json_dumps d) = some d ∧
    json_dumps ((json_loads (json_dumps d)).getD []) = json_dumps d := by
  have h1 := json_loads_dumps d (json_loads_nodup x d h)
  refine ⟨h1, ?_⟩
  rw [h1]
  rfl

theorem save_load_round_trip_witness :
    json_loads (json_dumps [(("a" : String), JVal.int 1)]) =
      some [(("a" : String), JVal.int 1)] ∧
    json_dumps ((json_loads (json_dumps [(("a" : String), JVal.int 1)])).getD []) =
      json_dumps [(("a" : String), JVal.int 1)] :=
  save_load_round_trip "\x7b\"a\": 1\x7d" [(("a" : String), JVal.int 1)] (by decide)
